import Mathlib

/-
Verification of the greedy clustering scripts `sourmash-uniqify.py` and
`uniqify-genomes.py`: a shallow embedding of the clustering loop, the
summary bookkeeping and the two emission policies, followed by theorems
about the claimed properties.

Sketch objects are opaque handles from the external sourmash library; we
model exactly the fields the scripts read (display name, filename, md5sum)
and take the similarity / max-containment scorers as parameters (they are
the external Similarity Oracle). Scores are modelled as rationals.
-/

namespace Uniqify

/-- Opaque sketch handle: the fields of a signature that the scripts read
(`str(sig)`, `sig.filename`, `sig.md5sum()`). -/
structure Sig where
  name : String
  filename : String
  md5 : String
  deriving DecidableEq, Repr

/-- An item of the pool: `(origin, sketch)` pair, as built by the loading
loops of both scripts (`siglist.append((filename, sig))`). -/
abbrev Item := String × Sig

/-- One scan of the remaining pool against the current founder
(`sourmash-uniqify.py` lines 73-90 / `uniqify-genomes.py` lines 69-81,
which are identical): an item scoring at least the threshold joins the
cluster, the rest go, in order, to the leftover pool.
Returns `(cluster, leftover)`. -/
def scanPass (useMC : Bool) (sim maxc : Sig → Sig → ℚ) (thr : ℚ) (founder : Sig) :
    List Item → List Item × List Item
  | [] => ([], [])
  | (sf, s) :: rest =>
    let r := scanPass useMC sim maxc thr founder rest
    let score := if useMC then maxc s founder else sim s founder
    if score ≥ thr then ((sf, s) :: r.1, r.2) else (r.1, (sf, s) :: r.2)

theorem scanPass_nil (useMC : Bool) (sim maxc : Sig → Sig → ℚ) (thr : ℚ) (founder : Sig) :
    scanPass useMC sim maxc thr founder [] = ([], []) := rfl

/-- The cluster and the leftover together are a permutation of the scanned
pool. -/
theorem scanPass_perm (useMC : Bool) (sim maxc : Sig → Sig → ℚ) (thr : ℚ)
    (founder : Sig) (l : List Item) :
    ((scanPass useMC sim maxc thr founder l).1 ++
      (scanPass useMC sim maxc thr founder l).2).Perm l := by
  induction l with
  | nil => simp [scanPass]
  | cons x rest ih =>
    obtain ⟨sf, s⟩ := x
    simp only [scanPass]
    by_cases h : (if useMC then maxc s founder else sim s founder) ≥ thr
    · simpa [h] using ih.cons (sf, s)
    · simp only [h, if_false]
      exact (List.perm_middle).trans (ih.cons (sf, s))

theorem scanPass_cluster_length (useMC : Bool) (sim maxc : Sig → Sig → ℚ) (thr : ℚ)
    (founder : Sig) (l : List Item) :
    (scanPass useMC sim maxc thr founder l).1.length +
      (scanPass useMC sim maxc thr founder l).2.length = l.length := by
  have h := (scanPass_perm useMC sim maxc thr founder l).length_eq
  simpa using h

theorem scanPass_leftover_length (useMC : Bool) (sim maxc : Sig → Sig → ℚ) (thr : ℚ)
    (founder : Sig) (l : List Item) :
    (scanPass useMC sim maxc thr founder l).2.length ≤ l.length := by
  have h := scanPass_cluster_length useMC sim maxc thr founder l
  omega

/-- Every scanned item whose score reaches the threshold lands in the
cluster. -/
theorem scanPass_mem_cluster (useMC : Bool) (sim maxc : Sig → Sig → ℚ) (thr : ℚ)
    (founder : Sig) (l : List Item) (it : Item) (hmem : it ∈ l)
    (hsc : (if useMC then maxc it.2 founder else sim it.2 founder) ≥ thr) :
    it ∈ (scanPass useMC sim maxc thr founder l).1 := by
  induction l with
  | nil => cases hmem
  | cons x rest ih =>
    obtain ⟨sf, s⟩ := x
    simp only [scanPass]
    rcases List.mem_cons.mp hmem with heq | htl
    · subst heq
      simp only at hsc
      simp [hsc]
    · by_cases h : (if useMC then maxc s founder else sim s founder) ≥ thr
      · simp only [h, if_true]
        exact List.mem_cons_of_mem _ (ih htl)
      · simp only [h, if_false]
        exact ih htl

/-- Every item in the leftover pool scored strictly below the threshold. -/
theorem scanPass_mem_leftover (useMC : Bool) (sim maxc : Sig → Sig → ℚ) (thr : ℚ)
    (founder : Sig) (l : List Item) (it : Item)
    (hmem : it ∈ (scanPass useMC sim maxc thr founder l).2) :
    (if useMC then maxc it.2 founder else sim it.2 founder) < thr := by
  induction l with
  | nil => simp [scanPass] at hmem
  | cons x rest ih =>
    obtain ⟨sf, s⟩ := x
    simp only [scanPass] at hmem
    by_cases h : (if useMC then maxc s founder else sim s founder) ≥ thr
    · simp only [h, if_true] at hmem
      exact ih hmem
    · simp only [h, if_false] at hmem
      rcases List.mem_cons.mp hmem with heq | htl
      · subst heq
        simpa using lt_of_not_ge h
      · exact ih htl

/-- A non-empty cluster can only come from a non-empty scanned pool. -/
theorem scanPass_cluster_ne_nil (useMC : Bool) (sim maxc : Sig → Sig → ℚ) (thr : ℚ)
    (founder : Sig) (l : List Item)
    (h : (scanPass useMC sim maxc thr founder l).1 ≠ []) : l ≠ [] := by
  intro hl
  subst hl
  exact h rfl

/-- The `ClusterMember` namedtuple of `sourmash-uniqify.py` (line 23). -/
structure ClusterMember where
  founder_from : String
  sigobj : Sig
  cluster_num : Nat
  member_type : String
  cluster_type : String
  deriving DecidableEq, Repr

/-- A formed cluster: the pass number, the popped founder and the members,
in scan order (the `pass_n`, `(founder_from, founder)` and `cluster`
variables of both scripts). -/
structure ClusterRec where
  pass_n : Nat
  founder_from : String
  founder : Sig
  members : List Item
  deriving DecidableEq, Repr

/-- Summary rows appended during one pass of `sourmash-uniqify.py`:
one member row per clustered item, in scan order (line 88), then the
founder's row — `multiclust` when the cluster is non-empty (lines 92-98),
`singleclust` otherwise (line 121). -/
def passRows (passN : Nat) (ffrom : String) (founder : Sig) (cluster : List Item) :
    List ClusterMember :=
  (cluster.map fun it => ⟨it.1, it.2, passN, "member", "multiclust"⟩) ++
    (if cluster.isEmpty then [⟨ffrom, founder, passN, "founder", "singleclust"⟩]
     else [⟨ffrom, founder, passN, "founder", "multiclust"⟩])

/-- Signature files written during one pass of `sourmash-uniqify.py`
(lines 102-126), as `(path, saved signatures)` pairs. With a non-empty
cluster, separate mode writes the founder file and the cluster file
(lines 104-110); merge mode only merges sketches in memory and writes no
file (lines 112-117, which print `saved` without saving). A singleton
always writes the founder file (lines 123-126). -/
def emitPassSm (mergeSigs : Bool) (pfx : String) (passN : Nat) (founder : Sig)
    (cluster : List Item) : List (String × List Sig) :=
  let base := pfx ++ "cluster." ++ toString passN
  if cluster.isEmpty then
    [(base ++ ".founder.sig", [founder])]
  else if mergeSigs then
    []
  else
    [(base ++ ".founder.sig", [founder]),
     (base ++ ".cluster.sig", cluster.map fun it => it.2)]

/-- Result of the clustering loop of `sourmash-uniqify.py`: the summary
log, the formed clusters, the files written, and the final value of the
scan-loop variable `sig` (which leaks out of the `for` loop and is later
read by the summary writer). -/
structure SmOut where
  summary : List ClusterMember
  clusters : List ClusterRec
  files : List (String × List Sig)
  leaked : Option Sig
  deriving DecidableEq, Repr

/-- The `while len(siglist)` loop of `sourmash-uniqify.py` (lines 62-129),
with an explicit fuel argument to drive the recursion; `runSm` below
supplies `pool.length` fuel, which always suffices because every pass pops
the founder. Each pass pops the LAST item as founder (`siglist.pop()`),
scans the remainder in order, records the pass's rows and files, and
recurses on the leftover pool. -/
def runSmAux (useMC mergeSigs : Bool) (sim maxc : Sig → Sig → ℚ) (thr : ℚ)
    (pfx : String) : Nat → List Item → Nat → Option Sig → SmOut
  | _, [], _, leaked => ⟨[], [], [], leaked⟩
  | 0, _ :: _, _, leaked => ⟨[], [], [], leaked⟩
  | fuel + 1, p :: ps, passN, leaked =>
    let founderIt := (p :: ps).getLast (List.cons_ne_nil p ps)
    let rest := (p :: ps).dropLast
    let r := scanPass useMC sim maxc thr founderIt.2 rest
    let leaked2 := match rest.getLast? with
      | some it => some it.2
      | none => leaked
    let rows := passRows passN founderIt.1 founderIt.2 r.1
    let fls := emitPassSm mergeSigs pfx passN founderIt.2 r.1
    let rec2 := runSmAux useMC mergeSigs sim maxc thr pfx fuel r.2 (passN + 1) leaked2
    ⟨rows ++ rec2.summary,
      ⟨passN, founderIt.1, founderIt.2, r.1⟩ :: rec2.clusters,
      fls ++ rec2.files, rec2.leaked⟩

/-- The clustering loop of `sourmash-uniqify.py` started on a given pool. -/
def runSm (useMC mergeSigs : Bool) (sim maxc : Sig → Sig → ℚ) (thr : ℚ)
    (pfx : String) (pool : List Item) (passN : Nat) (leaked : Option Sig) : SmOut :=
  runSmAux useMC mergeSigs sim maxc thr pfx pool.length pool passN leaked

/-- The whole `sourmash-uniqify.py` run after loading: seed the generator,
shuffle the pool once (`random.seed(seed); random.shuffle(siglist)` — the
shuffle is the external seeded PRNG, taken as a function parameter), then
run the clustering loop. -/
def mainSm (shuffle : Nat → List Item → List Item) (seed : Nat)
    (useMC mergeSigs : Bool) (sim maxc : Sig → Sig → ℚ) (thr : ℚ)
    (pfx : String) (siglist : List Item) : SmOut :=
  runSm useMC mergeSigs sim maxc thr pfx (shuffle seed siglist) 0 none

/-- One row of the summary spreadsheet of `sourmash-uniqify.py`
(headers at line 132). -/
structure CsvRow where
  origin_path : String
  name : String
  filename : String
  md5sum : String
  cluster_num : Nat
  member_type : String
  cluster_type : String
  deriving DecidableEq, Repr

/-- The summary spreadsheet writer of `sourmash-uniqify.py`
(lines 131-148). The `filename` and `md5sum` columns are read from the
variable `sig` (lines 145-146), which at this point holds the LAST item
scanned by the clustering loop — a leak of the scan-loop variable — not
the row's own item. If rows exist but no item was ever scanned, reading
`sig` raises `NameError`, modelled as `none`. -/
def writeSummary (summary : List ClusterMember) (leaked : Option Sig) :
    Option (List CsvRow) :=
  match summary, leaked with
  | [], _ => some []
  | _ :: _, none => none
  | rows, some s => some (rows.map fun m =>
      ⟨m.founder_from, m.sigobj.name, s.filename, s.md5,
        m.cluster_num, m.member_type, m.cluster_type⟩)

/-- A filesystem side effect performed by `uniqify-genomes.py`. -/
inductive FsAction where
  | mkdirNew (dir : String)
  | mkdirNote (dir : String)
  | copy (src : String) (dir : String)
  | writeGz (path : String) (sources : List String)
  deriving DecidableEq, Repr

/-- `os.mkdir`: raises `FileExistsError` (the error value) when the
directory already exists, otherwise creates it. The filesystem is modelled
as the list of existing directories. -/
def osMkdir (fs : List String) (dir : String) : Except Unit (List String) :=
  if dir ∈ fs then Except.error () else Except.ok (dir :: fs)

/-- The `try: os.mkdir(prefix) except FileExistsError: print(note)` block
of `uniqify-genomes.py` (lines 97-100 and 117-120): the existing-directory
error is caught, a note is printed, and execution continues. -/
def mkdirTolerant (fs : List String) (dir : String) : FsAction × List String :=
  match osMkdir fs dir with
  | Except.error _ => (FsAction.mkdirNote dir, fs)
  | Except.ok fs2 => (FsAction.mkdirNew dir, fs2)

/-- Output side effects for one pass of `uniqify-genomes.py` (lines
83-123). With a non-empty cluster: merge mode writes one gzipped archive
holding the founder's records then each member's (lines 87-94); separate
mode makes the cluster directory and copies `sig_from` — the scan loop's
LAST scanned item, not the founder — plus each member's file (lines
96-106). A singleton writes a founder-only archive (merge, lines 111-114)
or copies the founder's file (separate, lines 116-123). `none` models the
`NameError` that reading an unbound `sig_from` would raise (unreachable:
a non-empty cluster forces a non-empty scanned pool). -/
def emitPassG (mergeFiles : Bool) (pfx : String) (passN : Nat)
    (ffrom : String) (rest cluster : List Item) (fs : List String) :
    Option (List FsAction × List String) :=
  let base := pfx ++ "cluster." ++ toString passN
  if cluster.isEmpty then
    if mergeFiles then
      some ([FsAction.writeGz (base ++ ".fa.gz") [ffrom]], fs)
    else
      let m := mkdirTolerant fs base
      some ([m.1, FsAction.copy ffrom base], m.2)
  else
    if mergeFiles then
      some ([FsAction.writeGz (base ++ ".fa.gz")
        (ffrom :: cluster.map fun it => it.1)], fs)
    else
      match rest.getLast? with
      | none => none
      | some lastIt =>
        let m := mkdirTolerant fs base
        some (m.1 :: FsAction.copy lastIt.1 base ::
          cluster.map (fun it => FsAction.copy it.1 base), m.2)

/-- Result of the clustering loop of `uniqify-genomes.py`: the summary
log of `(origin, sketch, pass, role)` tuples, the formed clusters, the
filesystem actions performed, and the final set of directories. -/
structure GOut where
  summary : List (String × Sig × Nat × String)
  clusters : List ClusterRec
  actions : List FsAction
  fs : List String
  deriving DecidableEq, Repr

/-- The `while len(siglist)` loop of `uniqify-genomes.py` (lines 63-126),
fuel-driven like `runSmAux`. The founder's summary row is appended BEFORE
the scan (line 67), then one member row per clustered item (line 79). -/
def runGAux (useMC mergeFiles : Bool) (sim maxc : Sig → Sig → ℚ) (thr : ℚ)
    (pfx : String) : Nat → List Item → Nat → List String → Option GOut
  | _, [], _, fs => some ⟨[], [], [], fs⟩
  | 0, _ :: _, _, fs => some ⟨[], [], [], fs⟩
  | fuel + 1, p :: ps, passN, fs =>
    let founderIt := (p :: ps).getLast (List.cons_ne_nil p ps)
    let rest := (p :: ps).dropLast
    let r := scanPass useMC sim maxc thr founderIt.2 rest
    let rows := (founderIt.1, founderIt.2, passN, "founder") ::
      (r.1.map fun it => (it.1, it.2, passN, "member"))
    match emitPassG mergeFiles pfx passN founderIt.1 rest r.1 fs with
    | none => none
    | some er =>
      match runGAux useMC mergeFiles sim maxc thr pfx fuel r.2 (passN + 1) er.2 with
      | none => none
      | some rec2 =>
        some ⟨rows ++ rec2.summary,
          ⟨passN, founderIt.1, founderIt.2, r.1⟩ :: rec2.clusters,
          er.1 ++ rec2.actions, rec2.fs⟩

/-- The clustering loop of `uniqify-genomes.py` started on a given pool. -/
def runG (useMC mergeFiles : Bool) (sim maxc : Sig → Sig → ℚ) (thr : ℚ)
    (pfx : String) (pool : List Item) (fs : List String) : Option GOut :=
  runGAux useMC mergeFiles sim maxc thr pfx pool.length pool 0 fs

/-- The whole `uniqify-genomes.py` run after loading: seeded shuffle
(external PRNG, a function parameter) then the clustering loop. -/
def mainG (shuffle : Nat → List Item → List Item) (seed : Nat)
    (useMC mergeFiles : Bool) (sim maxc : Sig → Sig → ℚ) (thr : ℚ)
    (pfx : String) (siglist : List Item) (fs : List String) : Option GOut :=
  runG useMC mergeFiles sim maxc thr pfx (shuffle seed siglist) fs

/-- The copy actions among a list of filesystem actions. -/
def copyActions (acts : List FsAction) : List FsAction :=
  acts.filter fun a =>
    match a with
    | FsAction.copy _ _ => true
    | _ => false

/- Concrete fixtures used by witnesses and counterexamples. -/

def sigA : Sig := ⟨"sa", "a.fa", "md5a"⟩
def sigB : Sig := ⟨"sb", "b.fa", "md5b"⟩
def sigF : Sig := ⟨"sf", "f.fa", "md5f"⟩
def itA : Item := ("a.fa", sigA)
def itB : Item := ("b.fa", sigB)
def itF : Item := ("f.fa", sigF)

/-- A similarity oracle that scores every pair 1. -/
def simOne : Sig → Sig → ℚ := fun _ _ => 1

/-- A shuffle outcome leaving the pool unchanged (one of the permutations
the seeded generator can produce). -/
def noShuffle : Nat → List Item → List Item := fun _ l => l

/-- All items of a list of clusters: each founder followed by its members. -/
def flattenClusters (cs : List ClusterRec) : List Item :=
  cs.flatMap fun c => (c.founder_from, c.founder) :: c.members

/-- The merge flag is consulted only by the file-emission step: the summary
log, the clusters and the leaked scan variable do not depend on it. -/
theorem runSmAux_merge_indep (useMC b1 b2 : Bool) (sim maxc : Sig → Sig → ℚ)
    (thr : ℚ) (pfx : String) :
    ∀ (fuel : Nat) (pool : List Item) (passN : Nat) (leaked : Option Sig),
      (runSmAux useMC b1 sim maxc thr pfx fuel pool passN leaked).summary =
        (runSmAux useMC b2 sim maxc thr pfx fuel pool passN leaked).summary ∧
      (runSmAux useMC b1 sim maxc thr pfx fuel pool passN leaked).clusters =
        (runSmAux useMC b2 sim maxc thr pfx fuel pool passN leaked).clusters ∧
      (runSmAux useMC b1 sim maxc thr pfx fuel pool passN leaked).leaked =
        (runSmAux useMC b2 sim maxc thr pfx fuel pool passN leaked).leaked := by
  intro fuel
  induction fuel with
  | zero =>
    intro pool passN leaked
    cases pool <;> exact ⟨rfl, rfl, rfl⟩
  | succ fuel ih =>
    intro pool passN leaked
    cases pool with
    | nil => exact ⟨rfl, rfl, rfl⟩
    | cons p ps =>
      simp only [runSmAux]
      obtain ⟨h1, h2, h3⟩ := ih
        (scanPass useMC sim maxc thr ((p :: ps).getLast (List.cons_ne_nil p ps)).2
          ((p :: ps).dropLast)).2
        (passN + 1)
        (match ((p :: ps).dropLast).getLast? with
          | some it => some it.2
          | none => leaked)
      exact ⟨by rw [h1], by rw [h2], h3⟩

/-- The clustering loop forms at most one cluster per input item. -/
theorem runSmAux_clusters_length_le (useMC mergeSigs : Bool)
    (sim maxc : Sig → Sig → ℚ) (thr : ℚ) (pfx : String) :
    ∀ (fuel : Nat) (pool : List Item) (passN : Nat) (leaked : Option Sig),
      (runSmAux useMC mergeSigs sim maxc thr pfx fuel pool passN leaked).clusters.length ≤
        pool.length := by
  intro fuel
  induction fuel with
  | zero =>
    intro pool passN leaked
    cases pool <;> simp [runSmAux]
  | succ fuel ih =>
    intro pool passN leaked
    cases pool with
    | nil => simp [runSmAux]
    | cons p ps =>
      simp only [runSmAux, List.length_cons]
      have hrest : ((p :: ps).dropLast).length = ps.length := by
        simp [List.length_dropLast]
      have hlo := scanPass_leftover_length useMC sim maxc thr
        ((p :: ps).getLast (List.cons_ne_nil p ps)).2 ((p :: ps).dropLast)
      have hrec := ih
        (scanPass useMC sim maxc thr ((p :: ps).getLast (List.cons_ne_nil p ps)).2
          ((p :: ps).dropLast)).2
        (passN + 1)
        (match ((p :: ps).dropLast).getLast? with
          | some it => some it.2
          | none => leaked)
      omega

/-- Popping the last element and keeping the rest permutes a non-empty
list. -/
theorem getLast_cons_dropLast_perm {α : Type} (l : List α) (h : l ≠ []) :
    (l.getLast h :: l.dropLast).Perm l := by
  conv_rhs => rw [← List.dropLast_append_getLast h]
  exact (List.perm_append_singleton _ _).symm

/-- With enough fuel (one unit per item suffices), the founders and members
of the formed clusters are a permutation of the input pool. -/
theorem runSmAux_clusters_perm (useMC mergeSigs : Bool)
    (sim maxc : Sig → Sig → ℚ) (thr : ℚ) (pfx : String) :
    ∀ (fuel : Nat) (pool : List Item) (passN : Nat) (leaked : Option Sig),
      pool.length ≤ fuel →
      (flattenClusters
        (runSmAux useMC mergeSigs sim maxc thr pfx fuel pool passN leaked).clusters).Perm
        pool := by
  intro fuel
  induction fuel with
  | zero =>
    intro pool passN leaked h
    have : pool = [] := List.length_eq_zero.mp (Nat.le_zero.mp h)
    subst this
    simp [runSmAux, flattenClusters]
  | succ fuel ih =>
    intro pool passN leaked h
    cases pool with
    | nil => simp [runSmAux, flattenClusters]
    | cons p ps =>
      have hne : (p :: ps) ≠ [] := List.cons_ne_nil p ps
      set founderIt := (p :: ps).getLast hne with hf
      set rest := (p :: ps).dropLast with hr
      have hrlen : rest.length = ps.length := by
        simp [hr, List.length_dropLast]
      have hlo := scanPass_leftover_length useMC sim maxc thr founderIt.2 rest
      have hfuel : (scanPass useMC sim maxc thr founderIt.2 rest).2.length ≤ fuel := by
        have : ps.length + 1 ≤ fuel + 1 := by simpa using h
        omega
      have hrec := ih (scanPass useMC sim maxc thr founderIt.2 rest).2 (passN + 1)
        (match rest.getLast? with
          | some it => some it.2
          | none => leaked) hfuel
      simp only [runSmAux, flattenClusters, List.flatMap_cons, List.cons_append]
      have hscan := scanPass_perm useMC sim maxc thr founderIt.2 rest
      refine List.Perm.trans ?_ (getLast_cons_dropLast_perm (p :: ps) hne)
      exact ((hrec.append_left _).trans hscan).cons _

/-- `passRows` spelt out as one block: the member rows in scan order
followed by the single founder row of the pass. -/
theorem passRows_eq_block (passN : Nat) (ffrom : String) (founder : Sig)
    (cluster : List Item) :
    passRows passN ffrom founder cluster =
      (cluster.map fun it => ⟨it.1, it.2, passN, "member", "multiclust"⟩) ++
        [⟨ffrom, founder, passN, "founder",
          if cluster.isEmpty then "singleclust" else "multiclust"⟩] := by
  by_cases h : cluster.isEmpty <;> simp [passRows, h]

/-- The summary log is exactly the concatenation, cluster by cluster, of
that cluster's member rows (in scan order) followed by its single founder
row; and the clusters carry consecutive pass numbers starting at `passN`. -/
theorem runSmAux_summary_blocks (useMC mergeSigs : Bool)
    (sim maxc : Sig → Sig → ℚ) (thr : ℚ) (pfx : String) :
    ∀ (fuel : Nat) (pool : List Item) (passN : Nat) (leaked : Option Sig),
      (runSmAux useMC mergeSigs sim maxc thr pfx fuel pool passN leaked).summary =
        (runSmAux useMC mergeSigs sim maxc thr pfx fuel pool passN
          leaked).clusters.flatMap
          (fun c =>
            (c.members.map fun it =>
              (⟨it.1, it.2, c.pass_n, "member", "multiclust"⟩ : ClusterMember)) ++
            [⟨c.founder_from, c.founder, c.pass_n, "founder",
              if c.members.isEmpty then "singleclust" else "multiclust"⟩]) ∧
      (runSmAux useMC mergeSigs sim maxc thr pfx fuel pool passN leaked).clusters.map
          (fun c => c.pass_n) =
        List.range' passN
          (runSmAux useMC mergeSigs sim maxc thr pfx fuel pool passN
            leaked).clusters.length := by
  intro fuel
  induction fuel with
  | zero =>
    intro pool passN leaked
    cases pool <;> exact ⟨rfl, rfl⟩
  | succ fuel ih =>
    intro pool passN leaked
    cases pool with
    | nil => exact ⟨rfl, rfl⟩
    | cons p ps =>
      obtain ⟨ih1, ih2⟩ := ih
        (scanPass useMC sim maxc thr ((p :: ps).getLast (List.cons_ne_nil p ps)).2
          ((p :: ps).dropLast)).2
        (passN + 1)
        (match ((p :: ps).dropLast).getLast? with
          | some it => some it.2
          | none => leaked)
      simp only [runSmAux, List.flatMap_cons, List.map_cons, List.length_cons]
      constructor
      · rw [ih1, passRows_eq_block]
      · rw [ih2]
        rfl

/-- If the emission step of `uniqify-genomes.py` is reached with a
non-empty cluster, the scanned pool was non-empty, so `sig_from` is bound
and the emission succeeds. -/
theorem emitPassG_some (mergeFiles : Bool) (pfx : String) (passN : Nat)
    (ffrom : String) (rest cluster : List Item) (fs : List String)
    (hrc : cluster ≠ [] → rest ≠ []) :
    ∃ acts fs2, emitPassG mergeFiles pfx passN ffrom rest cluster fs =
      some (acts, fs2) := by
  unfold emitPassG
  by_cases hc : cluster.isEmpty
  · cases mergeFiles <;> simp [hc, mkdirTolerant]
  · have hrest : rest ≠ [] := hrc (by
      intro hnil
      rw [hnil] at hc
      exact hc rfl)
    have hl : rest.getLast? = some (rest.getLast hrest) :=
      List.getLast?_eq_getLast rest hrest
    cases mergeFiles <;> simp [hc, hl, mkdirTolerant]

/-- The clustering loop of `uniqify-genomes.py` never hits the unbound
`sig_from` case, and its clusters are a permutation of the input pool. -/
theorem runGAux_some_perm (useMC mergeFiles : Bool)
    (sim maxc : Sig → Sig → ℚ) (thr : ℚ) (pfx : String) :
    ∀ (fuel : Nat) (pool : List Item) (passN : Nat) (fs : List String),
      pool.length ≤ fuel →
      ∃ out, runGAux useMC mergeFiles sim maxc thr pfx fuel pool passN fs = some out ∧
        (flattenClusters out.clusters).Perm pool := by
  intro fuel
  induction fuel with
  | zero =>
    intro pool passN fs h
    have hp : pool = [] := List.length_eq_zero.mp (Nat.le_zero.mp h)
    subst hp
    exact ⟨⟨[], [], [], fs⟩, rfl, by simp [flattenClusters]⟩
  | succ fuel ih =>
    intro pool passN fs h
    cases pool with
    | nil => exact ⟨⟨[], [], [], fs⟩, rfl, by simp [flattenClusters]⟩
    | cons p ps =>
      have hne : (p :: ps) ≠ [] := List.cons_ne_nil p ps
      have hrc : (scanPass useMC sim maxc thr ((p :: ps).getLast hne).2
          ((p :: ps).dropLast)).1 ≠ [] → ((p :: ps).dropLast) ≠ [] :=
        scanPass_cluster_ne_nil useMC sim maxc thr _ _
      obtain ⟨acts, fs2, hemit⟩ := emitPassG_some mergeFiles pfx passN
        ((p :: ps).getLast hne).1 ((p :: ps).dropLast)
        (scanPass useMC sim maxc thr ((p :: ps).getLast hne).2
          ((p :: ps).dropLast)).1 fs hrc
      have hfuel : (scanPass useMC sim maxc thr ((p :: ps).getLast hne).2
          ((p :: ps).dropLast)).2.length ≤ fuel := by
        have h1 := scanPass_leftover_length useMC sim maxc thr
          ((p :: ps).getLast hne).2 ((p :: ps).dropLast)
        have h2 : ((p :: ps).dropLast).length = ps.length := by
          simp [List.length_dropLast]
        have h3 : ps.length + 1 ≤ fuel + 1 := by simpa using h
        omega
      obtain ⟨rec2, hrec2, hperm⟩ := ih
        (scanPass useMC sim maxc thr ((p :: ps).getLast hne).2
          ((p :: ps).dropLast)).2 (passN + 1) fs2 hfuel
      refine ⟨⟨((((p :: ps).getLast hne).1, ((p :: ps).getLast hne).2, passN, "founder") ::
          ((scanPass useMC sim maxc thr ((p :: ps).getLast hne).2
            ((p :: ps).dropLast)).1.map fun it => (it.1, it.2, passN, "member"))) ++
          rec2.summary,
        ⟨passN, ((p :: ps).getLast hne).1, ((p :: ps).getLast hne).2,
          (scanPass useMC sim maxc thr ((p :: ps).getLast hne).2
            ((p :: ps).dropLast)).1⟩ :: rec2.clusters,
        acts ++ rec2.actions, rec2.fs⟩, ?_, ?_⟩
      · simp only [runGAux, hemit, hrec2]
      · simp only [flattenClusters, List.flatMap_cons, List.cons_append]
        have hscan := scanPass_perm useMC sim maxc thr ((p :: ps).getLast hne).2
          ((p :: ps).dropLast)
        refine List.Perm.trans ?_ (getLast_cons_dropLast_perm (p :: ps) hne)
        exact ((hperm.append_left _).trans hscan).cons _

theorem copyActions_mkdirNote (d : String) (t : List FsAction) :
    copyActions (FsAction.mkdirNote d :: t) = copyActions t := rfl

theorem copyActions_mkdirNew (d : String) (t : List FsAction) :
    copyActions (FsAction.mkdirNew d :: t) = copyActions t := rfl

/-- The ordering over summary rows asserted by the specification: within a
pass, the founder row precedes every member row of that pass. -/
def founderRowFirst (s : List ClusterMember) : Prop :=
  ∀ (i j : Nat) (hi : i < s.length) (hj : j < s.length),
    (s.get ⟨i, hi⟩).member_type = "founder" →
    (s.get ⟨j, hj⟩).member_type = "member" →
    (s.get ⟨i, hi⟩).cluster_num = (s.get ⟨j, hj⟩).cluster_num →
    i < j

/-- C1: Partition — for every run (any shuffle outcome permuting the input
pool), every input item ends in exactly one emitted cluster, as founder or
member: the multiset of all clusters' founders and members equals the
original pool, with no duplicates and no omissions, in both scripts. -/
theorem c1_partition (shuffle : Nat → List Item → List Item) (seed : Nat)
    (useMC mergeSigs mergeFiles : Bool) (sim maxc : Sig → Sig → ℚ) (thr : ℚ)
    (pfx : String) (pool : List Item) (fs : List String)
    (hperm : (shuffle seed pool).Perm pool) :
    (flattenClusters
      (mainSm shuffle seed useMC mergeSigs sim maxc thr pfx pool).clusters).Perm pool ∧
    ∃ out, mainG shuffle seed useMC mergeFiles sim maxc thr pfx pool fs = some out ∧
      (flattenClusters out.clusters).Perm pool := by
  constructor
  · exact (runSmAux_clusters_perm useMC mergeSigs sim maxc thr pfx
      (shuffle seed pool).length (shuffle seed pool) 0 none (le_refl _)).trans hperm
  · obtain ⟨out, hout, hp⟩ := runGAux_some_perm useMC mergeFiles sim maxc thr pfx
      (shuffle seed pool).length (shuffle seed pool) 0 fs (le_refl _)
    exact ⟨out, hout, hp.trans hperm⟩

/-- Witness for C1 at a concrete two-item pool. -/
theorem c1_partition_witness :
    (flattenClusters
      (mainSm noShuffle 1 false false simOne simOne 0 "clust." [itA, itF]).clusters).Perm
      [itA, itF] ∧
    ∃ out, mainG noShuffle 1 false false simOne simOne 0 "clust." [itA, itF] [] =
        some out ∧
      (flattenClusters out.clusters).Perm [itA, itF] :=
  c1_partition noShuffle 1 false false false simOne simOne 0 "clust." [itA, itF] []
    (List.Perm.refl _)

/-- C2: Determinism — two runs of the clustering engine with the same pool
(same items, same pre-shuffle order), same threshold, same scoring mode
and same seed (hence the same shuffle outcome) produce identical results:
same founders, same members, same pass numbers, identical summary and
artifacts. -/
theorem c2_determinism (shuffle : Nat → List Item → List Item)
    (sim maxc : Sig → Sig → ℚ) (pfx : String) (mergeSigs : Bool)
    (useMC1 useMC2 : Bool) (thr1 thr2 : ℚ) (seed1 seed2 : Nat)
    (pool1 pool2 : List Item)
    (hpool : pool1 = pool2) (hthr : thr1 = thr2) (hmode : useMC1 = useMC2)
    (hseed : seed1 = seed2) :
    mainSm shuffle seed1 useMC1 mergeSigs sim maxc thr1 pfx pool1 =
      mainSm shuffle seed2 useMC2 mergeSigs sim maxc thr2 pfx pool2 := by
  subst hpool
  subst hthr
  subst hmode
  subst hseed
  rfl

/-- Witness for C2 at a concrete pool, threshold 1/5 and seed 1. -/
theorem c2_determinism_witness :
    mainSm noShuffle 1 false false simOne simOne (1 / 5) "clust." [itA, itF] =
      mainSm noShuffle 1 false false simOne simOne (1 / 5) "clust." [itA, itF] :=
  c2_determinism noShuffle simOne simOne "clust." false false false (1 / 5) (1 / 5)
    1 1 [itA, itF] [itA, itF] rfl rfl rfl rfl

/-- C3 (code defect): the summary writer of `sourmash-uniqify.py` fills
the filename and md5sum columns of EVERY row from the leaked scan-loop
variable `sig` — on a two-item pool clustering together, the founder's row
carries the member's filename `a.fa` and md5sum `md5a`, not the founder's
own `f.fa` / `md5f`. -/
theorem c3_summary_uses_leaked_sig :
    writeSummary
      (mainSm noShuffle 1 false false simOne simOne 0 "clust." [itA, itF]).summary
      (mainSm noShuffle 1 false false simOne simOne 0 "clust." [itA, itF]).leaked =
      some
        [⟨"a.fa", "sa", "a.fa", "md5a", 0, "member", "multiclust"⟩,
         ⟨"f.fa", "sf", "a.fa", "md5a", 0, "founder", "multiclust"⟩] ∧
    sigF.filename = "f.fa" ∧ sigF.md5 = "md5f" :=
  ⟨by decide, rfl, rfl⟩

/-- C4 (code defect): in merge mode `sourmash-uniqify.py` writes no
artifact at all for a multi-member cluster — on a 3-item pool forming one
cluster (founder + 2 members) in merge mode, the run writes zero files
(while printing `saved`). -/
theorem c4_merge_writes_nothing :
    (mainSm noShuffle 1 false true simOne simOne 0 "clust." [itA, itB, itF]).files =
      [] ∧
    (mainSm noShuffle 1 false true simOne simOne 0 "clust." [itA, itB, itF]).clusters.map
      (fun c => c.members.length) = [2] :=
  ⟨by decide, by decide⟩

/-- C5 counterexample: on a two-item pool that clusters together, the
summary holds the member row first (append order) and the pass's founder
row after it — the founder row does not precede the member rows. -/
theorem c5_founder_first_false :
    ¬ founderRowFirst
      (mainSm noShuffle 1 false false simOne simOne 0 "clust." [itA, itF]).summary := by
  intro h
  have h2 := h 1 0 (by decide) (by decide) (by decide) (by decide) (by decide)
  exact absurd h2 (by decide)

/-- C5 (amended): summary rows appear in the exact order they were
appended — the summary is precisely the concatenation, pass by pass, of
each cluster's member rows (in scan order) followed by that pass's single
founder row, and the emitted clusters carry consecutive pass numbers
0, 1, 2, …, so all rows of pass k precede all rows of pass k+1. -/
theorem c5_summary_order (shuffle : Nat → List Item → List Item) (seed : Nat)
    (useMC mergeSigs : Bool) (sim maxc : Sig → Sig → ℚ) (thr : ℚ)
    (pfx : String) (pool : List Item) :
    (mainSm shuffle seed useMC mergeSigs sim maxc thr pfx pool).summary =
      (mainSm shuffle seed useMC mergeSigs sim maxc thr pfx pool).clusters.flatMap
        (fun c =>
          (c.members.map fun it =>
            (⟨it.1, it.2, c.pass_n, "member", "multiclust"⟩ : ClusterMember)) ++
          [⟨c.founder_from, c.founder, c.pass_n, "founder",
            if c.members.isEmpty then "singleclust" else "multiclust"⟩]) ∧
    (mainSm shuffle seed useMC mergeSigs sim maxc thr pfx pool).clusters.map
        (fun c => c.pass_n) =
      List.range
        (mainSm shuffle seed useMC mergeSigs sim maxc thr pfx pool).clusters.length := by
  obtain ⟨h1, h2⟩ := runSmAux_summary_blocks useMC mergeSigs sim maxc thr pfx
    (shuffle seed pool).length (shuffle seed pool) 0 none
  refine ⟨h1, ?_⟩
  rw [List.range_eq_range']
  exact h2

/-- C6 (code defect): in separate (file-copy) mode `uniqify-genomes.py`
copies `sig_from` — the scan loop's last item — instead of the founder's
file: on a two-item pool clustering together, the member's file `a.fa` is
copied twice into the cluster directory and the founder's file `f.fa` is
never copied. -/
theorem c6_founder_file_not_copied :
    mainG noShuffle 1 false false simOne simOne 0 "clust." [itA, itF] [] =
      some ⟨[("f.fa", sigF, 0, "founder"), ("a.fa", sigA, 0, "member")],
        [⟨0, "f.fa", sigF, [itA]⟩],
        [FsAction.mkdirNew "clust.cluster.0",
         FsAction.copy "a.fa" "clust.cluster.0",
         FsAction.copy "a.fa" "clust.cluster.0"],
        ["clust.cluster.0"]⟩ ∧
    FsAction.copy "f.fa" "clust.cluster.0" ∉
      [FsAction.mkdirNew "clust.cluster.0",
       FsAction.copy "a.fa" "clust.cluster.0",
       FsAction.copy "a.fa" "clust.cluster.0"] := by
  decide

/-- C7: Threshold inclusivity — an item whose score against the current
founder equals the threshold exactly is classified as a member of the
cluster, not leftover (both scripts share this scan). -/
theorem c7_threshold_inclusive (useMC : Bool) (sim maxc : Sig → Sig → ℚ)
    (thr : ℚ) (founder : Sig) (rest : List Item) (it : Item)
    (hmem : it ∈ rest)
    (hsc : (if useMC then maxc it.2 founder else sim it.2 founder) = thr) :
    it ∈ (scanPass useMC sim maxc thr founder rest).1 ∧
      it ∉ (scanPass useMC sim maxc thr founder rest).2 := by
  refine ⟨scanPass_mem_cluster useMC sim maxc thr founder rest it hmem
    (ge_of_eq hsc), ?_⟩
  intro hlf
  have hlt := scanPass_mem_leftover useMC sim maxc thr founder rest it hlf
  rw [hsc] at hlt
  exact lt_irrefl thr hlt

/-- Witness for C7: an item scoring exactly the threshold 1 joins the
cluster. -/
theorem c7_threshold_inclusive_witness :
    itA ∈ (scanPass false simOne simOne 1 sigF [itA]).1 ∧
      itA ∉ (scanPass false simOne simOne 1 sigF [itA]).2 :=
  c7_threshold_inclusive false simOne simOne 1 sigF [itA] itA (by decide) (by decide)

/-- C8: Termination and pass bounds — an empty pool yields 0 passes, a
pool of N > 0 items yields between 1 and N passes, and each pass removes
at least one item (popping the founder makes the next pool strictly
shorter), which is why the loop terminates. -/
theorem c8_pass_bounds (shuffle : Nat → List Item → List Item) (seed : Nat)
    (useMC mergeSigs : Bool) (sim maxc : Sig → Sig → ℚ) (thr : ℚ)
    (pfx : String) (pool : List Item)
    (hlen : (shuffle seed pool).length = pool.length) :
    (pool = [] →
      (mainSm shuffle seed useMC mergeSigs sim maxc thr pfx pool).clusters.length = 0) ∧
    (pool ≠ [] →
      1 ≤ (mainSm shuffle seed useMC mergeSigs sim maxc thr pfx pool).clusters.length) ∧
    (mainSm shuffle seed useMC mergeSigs sim maxc thr pfx pool).clusters.length ≤
      pool.length ∧
    ∀ (founder : Sig) (p : Item) (ps : List Item),
      (scanPass useMC sim maxc thr founder ((p :: ps).dropLast)).2.length <
        (p :: ps).length := by
  refine ⟨?_, ?_, ?_, ?_⟩
  · intro hp
    subst hp
    have hs : shuffle seed [] = [] := List.length_eq_zero.mp (by simpa using hlen)
    simp [mainSm, runSm, hs, runSmAux]
  · intro hp
    have hs : shuffle seed pool ≠ [] := by
      intro hnil
      apply hp
      apply List.length_eq_zero.mp
      rw [← hlen, hnil]
      rfl
    obtain ⟨q, qs, hq⟩ := List.exists_cons_of_ne_nil hs
    simp only [mainSm, runSm, hq, List.length_cons, runSmAux, List.length_cons]
    omega
  · have h := runSmAux_clusters_length_le useMC mergeSigs sim maxc thr pfx
      (shuffle seed pool).length (shuffle seed pool) 0 none
    exact le_of_le_of_eq h hlen
  · intro founder p ps
    have h1 := scanPass_leftover_length useMC sim maxc thr founder ((p :: ps).dropLast)
    have h2 : ((p :: ps).dropLast).length = ps.length := by
      simp [List.length_dropLast]
    simp only [List.length_cons]
    omega

/-- Witness for C8 at a concrete two-item pool. -/
theorem c8_pass_bounds_witness :
    (([itA, itF] : List Item) = [] →
      (mainSm noShuffle 1 false false simOne simOne 0 "clust."
        [itA, itF]).clusters.length = 0) ∧
    (([itA, itF] : List Item) ≠ [] →
      1 ≤ (mainSm noShuffle 1 false false simOne simOne 0 "clust."
        [itA, itF]).clusters.length) ∧
    (mainSm noShuffle 1 false false simOne simOne 0 "clust."
      [itA, itF]).clusters.length ≤ ([itA, itF] : List Item).length ∧
    ∀ (founder : Sig) (p : Item) (ps : List Item),
      (scanPass false simOne simOne 0 founder ((p :: ps).dropLast)).2.length <
        (p :: ps).length :=
  c8_pass_bounds noShuffle 1 false false simOne simOne 0 "clust." [itA, itF] rfl

/-- C9: Directory-exists tolerance — in separate (file-copy) mode, when
the per-cluster directory already exists, the `FileExistsError` is caught:
the pass's emission still succeeds, a note is logged in place of the
mkdir, the directory set is unchanged, and exactly the same copies are
performed as on any other filesystem state. -/
theorem c9_dir_exists_tolerated (pfx : String) (passN : Nat) (ffrom : String)
    (rest cluster : List Item) (fs : List String)
    (hdir : (pfx ++ "cluster." ++ toString passN) ∈ fs)
    (hrc : cluster ≠ [] → rest ≠ []) :
    ∃ acts, emitPassG false pfx passN ffrom rest cluster fs = some (acts, fs) ∧
      FsAction.mkdirNote (pfx ++ "cluster." ++ toString passN) ∈ acts ∧
      ∀ fs2, ∃ acts2 fs3,
        emitPassG false pfx passN ffrom rest cluster fs2 = some (acts2, fs3) ∧
        copyActions acts2 = copyActions acts := by
  by_cases hc : cluster.isEmpty
  · refine ⟨[FsAction.mkdirNote (pfx ++ "cluster." ++ toString passN),
      FsAction.copy ffrom (pfx ++ "cluster." ++ toString passN)], ?_, by simp, ?_⟩
    · simp [emitPassG, hc, mkdirTolerant, osMkdir, hdir]
    · intro fs2
      by_cases h2 : (pfx ++ "cluster." ++ toString passN) ∈ fs2
      · refine ⟨[FsAction.mkdirNote (pfx ++ "cluster." ++ toString passN),
          FsAction.copy ffrom (pfx ++ "cluster." ++ toString passN)], fs2, ?_, rfl⟩
        simp [emitPassG, hc, mkdirTolerant, osMkdir, h2]
      · refine ⟨[FsAction.mkdirNew (pfx ++ "cluster." ++ toString passN),
          FsAction.copy ffrom (pfx ++ "cluster." ++ toString passN)],
          (pfx ++ "cluster." ++ toString passN) :: fs2, ?_, ?_⟩
        · simp [emitPassG, hc, mkdirTolerant, osMkdir, h2]
        · rw [copyActions_mkdirNew, copyActions_mkdirNote]
  · have hrest : rest ≠ [] := hrc (fun hnil => by
      rw [hnil] at hc
      exact hc rfl)
    have hl : rest.getLast? = some (rest.getLast hrest) :=
      List.getLast?_eq_getLast rest hrest
    refine ⟨FsAction.mkdirNote (pfx ++ "cluster." ++ toString passN) ::
      FsAction.copy (rest.getLast hrest).1 (pfx ++ "cluster." ++ toString passN) ::
      cluster.map (fun it =>
        FsAction.copy it.1 (pfx ++ "cluster." ++ toString passN)), ?_, by simp, ?_⟩
    · simp [emitPassG, hc, hl, mkdirTolerant, osMkdir, hdir]
    · intro fs2
      by_cases h2 : (pfx ++ "cluster." ++ toString passN) ∈ fs2
      · refine ⟨FsAction.mkdirNote (pfx ++ "cluster." ++ toString passN) ::
          FsAction.copy (rest.getLast hrest).1 (pfx ++ "cluster." ++ toString passN) ::
          cluster.map (fun it =>
            FsAction.copy it.1 (pfx ++ "cluster." ++ toString passN)), fs2, ?_, rfl⟩
        simp [emitPassG, hc, hl, mkdirTolerant, osMkdir, h2]
      · refine ⟨FsAction.mkdirNew (pfx ++ "cluster." ++ toString passN) ::
          FsAction.copy (rest.getLast hrest).1 (pfx ++ "cluster." ++ toString passN) ::
          cluster.map (fun it =>
            FsAction.copy it.1 (pfx ++ "cluster." ++ toString passN)),
          (pfx ++ "cluster." ++ toString passN) :: fs2, ?_, ?_⟩
        · simp [emitPassG, hc, hl, mkdirTolerant, osMkdir, h2]
        · rw [copyActions_mkdirNew, copyActions_mkdirNote]

/-- Witness for C9: the cluster directory already exists, the emission
still succeeds with the same copies. -/
theorem c9_dir_exists_tolerated_witness :
    ∃ acts, emitPassG false "clust." 0 "f.fa" [itA] [itA] ["clust.cluster.0"] =
        some (acts, ["clust.cluster.0"]) ∧
      FsAction.mkdirNote "clust.cluster.0" ∈ acts ∧
      ∀ fs2, ∃ acts2 fs3,
        emitPassG false "clust." 0 "f.fa" [itA] [itA] fs2 = some (acts2, fs3) ∧
        copyActions acts2 = copyActions acts :=
  c9_dir_exists_tolerated "clust." 0 "f.fa" [itA] [itA] ["clust.cluster.0"]
    (by decide) (fun _ => by decide)

/-- C10: Emission-mode noninterference — for every pool, seed, threshold
and scoring mode, enabling or disabling merge mode changes neither the
cluster assignments nor the summary (rows, leaked scan variable, written
CSV); only the emitted artifacts may differ. -/
theorem c10_mode_noninterference (shuffle : Nat → List Item → List Item)
    (seed : Nat) (useMC : Bool) (sim maxc : Sig → Sig → ℚ) (thr : ℚ)
    (pfx : String) (pool : List Item) :
    (mainSm shuffle seed useMC true sim maxc thr pfx pool).summary =
      (mainSm shuffle seed useMC false sim maxc thr pfx pool).summary ∧
    (mainSm shuffle seed useMC true sim maxc thr pfx pool).clusters =
      (mainSm shuffle seed useMC false sim maxc thr pfx pool).clusters ∧
    (mainSm shuffle seed useMC true sim maxc thr pfx pool).leaked =
      (mainSm shuffle seed useMC false sim maxc thr pfx pool).leaked ∧
    writeSummary (mainSm shuffle seed useMC true sim maxc thr pfx pool).summary
        (mainSm shuffle seed useMC true sim maxc thr pfx pool).leaked =
      writeSummary (mainSm shuffle seed useMC false sim maxc thr pfx pool).summary
        (mainSm shuffle seed useMC false sim maxc thr pfx pool).leaked := by
  obtain ⟨h1, h2, h3⟩ := runSmAux_merge_indep useMC true false sim maxc thr pfx
    (shuffle seed pool).length (shuffle seed pool) 0 none
  refine ⟨h1, h2, h3, ?_⟩
  rw [show (mainSm shuffle seed useMC true sim maxc thr pfx pool).summary =
      (mainSm shuffle seed useMC false sim maxc thr pfx pool).summary from h1,
    show (mainSm shuffle seed useMC true sim maxc thr pfx pool).leaked =
      (mainSm shuffle seed useMC false sim maxc thr pfx pool).leaked from h3]

end Uniqify
